import Mathlib

/-!
Verification development for the LinkedIn-Recommender profile pipeline.
The definitions below are shallow embeddings of the TypeScript sources:
the tokenizer, codec and finalizer from services/csv.ts, the enrichment
orchestrator loop and the search merger from the application component,
and the oracle capability layer from services/gemini.ts.  JavaScript
string truthiness is modelled by comparison with the empty string, the
wall-clock timestamp used in generated ids is modelled by an explicit
parameter, and asynchronous oracle calls are modelled as pure functions
packaged in an Oracle record, with the fallible extract capability
returning an Except value.
-/

namespace LinkedinRecommender

/-- Semantic field targets of a column mapping, from types.ts. -/
inductive FieldType where
| name
| title
| company
| linkedin_url
| email
| ignore
deriving DecidableEq

/-- Lifecycle status of a record, from types.ts. -/
inductive EnrichmentStatus where
| pending
| processing
| success
| fallback
| error
deriving DecidableEq

/-- Provenance of the enrichment payload, from types.ts. -/
inductive EnrichmentSource where
| none
| gemini_web
| title_inference
deriving DecidableEq

/-- A supporting source link attached to a successful extraction. -/
structure GroundingLink where
  uri : String
  title : String
deriving DecidableEq

/-- A declared correspondence between a source column and a field. -/
structure ColumnMapping where
  header : String
  mappedTo : FieldType
  preview : List String
  autoDetected : Bool
deriving DecidableEq

/-- One contact record flowing through the pipeline, from types.ts.
Optional string fields are modelled as String with the empty string for
an absent value, which matches JavaScript truthiness tests; the ranking
payload keeps Option so that a record never ranked is distinguishable. -/
structure Profile where
  id : String
  name : String
  title : String
  company : String
  region : String
  linkedin_url : String
  email : String
  selected : Bool
  years_of_experience : String
  background : String
  what_they_do : String
  achievements : String
  skills : List String
  grounding_urls : List GroundingLink
  match_reason : Option String
  score : Option Int
  enrichment_status : EnrichmentStatus
  enrichment_source : EnrichmentSource
deriving DecidableEq

/-- Payload of the extract capability, from types.ts. -/
structure EnrichmentResult where
  years_of_experience : String
  background : String
  what_they_do : String
  achievements : String
  skills : List String
  region : String
  is_valid : Bool
  grounding_urls : List GroundingLink
deriving DecidableEq

/-- Payload of the fallback capability, from types.ts. -/
structure FallbackResult where
  typical_responsibilities : String
  typical_skills : List String
deriving DecidableEq

/-- Payload of the identify capability. -/
structure IdentifyResult where
  title : String
  company : String
  region : String
deriving DecidableEq

/-- One ranked hit returned by the rank capability. -/
structure RecHit where
  id : String
  score : Int
  reason : String
deriving DecidableEq

/-- The oracle capability contracts consumed by the pipeline.  The
identify and fallback capabilities catch their own failures in
services/gemini.ts and therefore never raise; the extract capability
rethrows provider errors, modelled with Except. -/
structure Oracle where
  identifyRole : String → String → IdentifyResult
  enrichWithGemini : String → String → String → String → Except String EnrichmentResult
  inferFromTitle : String → String → FallbackResult

/-- JavaScript a or-else b on strings: a when non-empty, otherwise b. -/
def jsOr (a b : String) : String :=
  if a = "" then b else a

/-! ### Tokenizer, from parseRawCSV in services/csv.ts -/

/-- Result of the tokenizer: a header row and the remaining data rows. -/
structure RawCSV where
  headers : List String
  rows : List (List String)
deriving DecidableEq

/-- Drop leading and trailing whitespace from a character list; this is
the model of the JavaScript trim used throughout the sources. -/
def trimChars (l : List Char) : List Char :=
  ((l.dropWhile Char.isWhitespace).reverse.dropWhile Char.isWhitespace).reverse

/-- Trim a field accumulator, as the source trims each emitted field. -/
def strTrim (l : List Char) : String :=
  String.mk (trimChars l)

/-- Model of the JavaScript toLowerCase used by the sources. -/
def strLower (s : String) : String :=
  String.mk (s.toList.map Char.toLower)

/-- The single left-to-right scan of parseRawCSV: state is the quote
flag, the field accumulator, the current row and the finished rows. -/
def csvScan : Bool → List Char → List String → List (List String) → List Char → List (List String)
| _, currField, row, acc, [] =>
    if row.length > 0 ∨ currField ≠ [] then acc ++ [row ++ [strTrim currField]] else acc
| true, currField, row, acc, '"' :: '"' :: rest => csvScan true (currField ++ ['"']) row acc rest
| true, currField, row, acc, '"' :: rest => csvScan false currField row acc rest
| true, currField, row, acc, c :: rest => csvScan true (currField ++ [c]) row acc rest
| false, currField, row, acc, '"' :: rest => csvScan true currField row acc rest
| false, currField, row, acc, ',' :: rest => csvScan false [] (row ++ [strTrim currField]) acc rest
| false, currField, row, acc, '\r' :: '\n' :: rest => csvScan false [] [] (acc ++ [row ++ [strTrim currField]]) rest
| false, currField, row, acc, '\n' :: rest => csvScan false [] [] (acc ++ [row ++ [strTrim currField]]) rest
| false, currField, row, acc, '\r' :: rest => csvScan false [] [] (acc ++ [row ++ [strTrim currField]]) rest
| false, currField, row, acc, c :: rest => csvScan false (currField ++ [c]) row acc rest

/-- parseRawCSV: scan the text, then split off the first row as the
headers and keep the remainder as data rows. -/
def parseRawCSV (text : String) : RawCSV :=
  let result := csvScan false [] [] [] text.toList
  { headers := (result.head?).getD [], rows := result.tail }

/-! ### Codec restore, from parseEnrichedCSV in services/csv.ts -/

/-- Map with the element index, starting from a given index; this is the
model of the indexed row mapping done by the codec and the finalizer. -/
def mapWithIdx {α β : Type} (f : Nat → α → β) : Nat → List α → List β
| _, [] => []
| i, a :: l => f i a :: mapWithIdx f (i + 1) l

/-- Boolean test that the first list is a leading segment of the second. -/
def charsPrefix : List Char → List Char → Bool
| [], _ => true
| _ :: _, [] => false
| n :: ns, c :: cs => (n == c) && charsPrefix ns cs

/-- Boolean test that one string starts with another. -/
def strHasPrefix (pre s : String) : Bool :=
  charsPrefix pre.toList s.toList

/-- Remove every double-quote and single-quote character, as the restore
operation does when normalizing headers. -/
def stripQuoteChars (s : String) : String :=
  String.mk (s.toList.filter (fun c => !(c == '"') && !(c == '\'')))

/-- Drop one leading and one trailing double quote when present, the
model of the edge-quote-stripping replacement used on restored cells. -/
def stripEdgeQuotes (s : String) : String :=
  let l := s.toList
  let l1 := if l.head? == some '"' then l.tail else l
  let l2 := if l1.getLast? == some '"' then l1.dropLast else l1
  String.mk l2

/-- Split a character list at every comma, the model of the JavaScript
split on a comma; an empty input yields one empty piece. -/
def splitComma : List Char → List (List Char)
| [] => [[]]
| c :: rest =>
    if c = ',' then [] :: splitComma rest
    else
      match splitComma rest with
      | [] => [[c]]
      | h :: t => (c :: h) :: t

/-- Rebuild the skills list from its exported comma-joined cell: split on
commas, trim, strip edge quotes, and drop empty pieces. -/
def restoreSkills (skillsRaw : String) : List String :=
  if skillsRaw = "" then []
  else ((splitComma skillsRaw.toList).map (fun l => stripEdgeQuotes (strTrim l))).filter
    (fun s => s != "")

/-- Header normalization of the restore operation: lower-case, remove
quote characters, trim. -/
def normalizeHeaders (headers : List String) : List String :=
  headers.map (fun s => strTrim (stripQuoteChars (strLower s)).toList)

/-- Read the cell at an optional column index; a missing column yields
the given default, and an out-of-range access is modelled as empty. -/
def colValue (row : List String) (idx : Option Nat) (dflt : String) : String :=
  match idx with
  | some i => row.getD i ""
  | none => dflt

/-- Rebuild one profile from a restored row.  The id is built from the
row index and the timestamp parameter, and the status and source are the
fixed success and gemini_web values of the source. -/
def restoreOne (h : List String) (now : Nat) (i : Nat) (row : List String) : Profile :=
  { id := "restored-" ++ (toString i ++ ("-" ++ toString now)),
    name := stripEdgeQuotes (colValue row (h.findIdx? (fun x => x == "name")) "Unknown"),
    title := stripEdgeQuotes (colValue row (h.findIdx? (fun x => x == "title")) ""),
    company := stripEdgeQuotes (colValue row (h.findIdx? (fun x => x == "company")) ""),
    region := stripEdgeQuotes (colValue row (h.findIdx? (fun x => x == "region")) ""),
    linkedin_url := stripEdgeQuotes (colValue row (h.findIdx? (fun x => x == "linkedin")) ""),
    email := "",
    selected := true,
    years_of_experience :=
      stripEdgeQuotes (colValue row (h.findIdx? (fun x => x == "years of experience")) ""),
    background := stripEdgeQuotes (colValue row (h.findIdx? (fun x => x == "background")) ""),
    what_they_do := stripEdgeQuotes (colValue row (h.findIdx? (fun x => x == "responsibilities")) ""),
    achievements := stripEdgeQuotes (colValue row (h.findIdx? (fun x => x == "achievements")) ""),
    skills := restoreSkills (colValue row (h.findIdx? (fun x => x == "skills")) ""),
    grounding_urls := [],
    match_reason := none,
    score := none,
    enrichment_status := EnrichmentStatus.success,
    enrichment_source := EnrichmentSource.gemini_web }

/-- parseEnrichedCSV: normalize the headers once, then rebuild one
profile per row. -/
def parseEnrichedCSV (headers : List String) (rows : List (List String)) (now : Nat) :
    List Profile :=
  mapWithIdx (restoreOne (normalizeHeaders headers) now) 0 rows

/-- A concrete restored profile used to state witnesses. -/
def wRestoreDefault : Profile := restoreOne [] 0 0 []

/-! ### Cleaning rule and finalizer, from services/csv.ts -/

/-- First line of a cell: the characters before the first newline, with
a carriage return immediately preceding that newline also dropped. -/
def firstCsvLine : List Char → List Char
| [] => []
| '\r' :: '\n' :: _ => []
| '\n' :: _ => []
| c :: rest => c :: firstCsvLine rest

/-- One-pass removal of a bracketed segment: a bracket opens a buffer,
the next closing bracket discards it, and a buffer still open at the end
of the input is emitted verbatim because the pattern found no match. -/
def sbAux : Option (List Char) → List Char → List Char
| none, [] => []
| none, c :: rest => if c = '[' then sbAux (some []) rest else c :: sbAux none rest
| some buf, [] => '[' :: buf.reverse
| some buf, c :: rest =>
    if c = ']' then sbAux none rest else sbAux (some (c :: buf)) rest

/-- Remove every lazily bracketed segment from the first line. -/
def stripBrackets (l : List Char) : List Char :=
  sbAux none l

/-- Case-insensitive test that the first list leads the second. -/
def ciPrefixTest : List Char → List Char → Bool
| [], _ => true
| _ :: _, [] => false
| n :: ns, c :: cs => (n.toLower == c.toLower) && ciPrefixTest ns cs

/-- Truncate at the first case-insensitive occurrence of the phrase; the
rest of the line is swallowed, as the dot-star suffix of the pattern
does.  The input is the extracted first line of a cell. -/
def truncFromCi (needle : List Char) : List Char → List Char
| [] => []
| c :: rest => if ciPrefixTest needle (c :: rest) then [] else c :: truncFromCi needle rest

/-- Remove every case-insensitive occurrence of the phrase, scanning
left to right and continuing after each removed occurrence.  The fuel
argument makes the recursion structural; every step consumes at least
one character, so fuel equal to the input length never runs out. -/
def ciRemoveAllF (needle : List Char) : Nat → List Char → List Char
| _, [] => []
| 0, l => l
| fuel + 1, c :: rest =>
    if ciPrefixTest needle (c :: rest) ∧ needle ≠ [] then
      ciRemoveAllF needle fuel (rest.drop (needle.length - 1))
    else c :: ciRemoveAllF needle fuel rest

/-- Remove every case-insensitive occurrence of the phrase. -/
def ciRemoveAll (needle : List Char) (l : List Char) : List Char :=
  ciRemoveAllF needle l.length l

/-- The fixed placeholder set whose members clean to the empty string. -/
def lumaPlaceholders : List String :=
  ["n/a", "na", "none", ".", "0", "not applicable", "#n/a"]

/-- cleanLumaGarbage: keep only the first line, remove bracketed
bracketed segments, truncate at the registration phrases and at a pipe, trim,
and map placeholder values to the empty string. -/
def cleanLumaGarbage (val : String) : String :=
  if val = "" then ""
  else
    let step1 := stripBrackets (firstCsvLine val.toList)
    let step2 := truncFromCi "has registered for".toList step1
    let step3 := ciRemoveAll "registered for your event".toList step2
    let cleaned := strTrim (step3.takeWhile (fun c => c != '|'))
    if lumaPlaceholders.contains (strLower cleaned) then "" else cleaned

/-- Greedy run of characters allowed inside a matched URL: everything up
to the first whitespace or closing bracket. -/
def urlTail (l : List Char) : List Char :=
  l.takeWhile (fun c => !c.isWhitespace && !(c == ']'))

/-- Try to match the URL pattern at the head of the list. -/
def urlAt (l : List Char) : Option (List Char) :=
  if charsPrefix "https://".toList l then
    let t := urlTail (l.drop 8)
    if t = [] then none else some ("https://".toList ++ t)
  else if charsPrefix "http://".toList l then
    let t := urlTail (l.drop 7)
    if t = [] then none else some ("http://".toList ++ t)
  else none

/-- First URL-shaped substring of a cell, scanning left to right. -/
def matchUrl : List Char → Option (List Char)
| [] => none
| c :: rest =>
    match urlAt (c :: rest) with
    | some m => some m
    | none => matchUrl rest

/-- The linkedin_url cell treatment: the first matched URL, or the empty
string modelling the unset field when nothing matches. -/
def urlField (val : String) : String :=
  match matchUrl val.toList with
  | some m => String.mk m
  | none => ""

/-- The freshly created profile of the finalizer before any column is
applied: pending, source none, selected, id from row index and time. -/
def initProfile (rowIdx now : Nat) : Profile :=
  { id := "profile-" ++ (toString rowIdx ++ ("-" ++ toString now)),
    name := "", title := "", company := "", region := "", linkedin_url := "", email := "",
    selected := true,
    years_of_experience := "", background := "", what_they_do := "", achievements := "",
    skills := [], grounding_urls := [], match_reason := none, score := none,
    enrichment_status := EnrichmentStatus.pending,
    enrichment_source := EnrichmentSource.none }

/-- Apply one column mapping to a profile under construction. -/
def applyMapping (row : List String) (colIdx : Nat) (m : ColumnMapping) (p : Profile) :
    Profile :=
  match m.mappedTo with
  | FieldType.ignore => p
  | FieldType.name =>
      { p with name := jsOr (cleanLumaGarbage (row.getD colIdx "")) "Unknown Attendee" }
  | FieldType.linkedin_url => { p with linkedin_url := urlField (row.getD colIdx "") }
  | FieldType.title => { p with title := cleanLumaGarbage (row.getD colIdx "") }
  | FieldType.company => { p with company := cleanLumaGarbage (row.getD colIdx "") }
  | FieldType.email => { p with email := cleanLumaGarbage (row.getD colIdx "") }

/-- Apply the mappings in order, tracking the column index. -/
def applyMappings (row : List String) : Nat → List ColumnMapping → Profile → Profile
| _, [], p => p
| colIdx, m :: ms, p => applyMappings row (colIdx + 1) ms (applyMapping row colIdx m p)

/-- finalizeProfiles: one profile per row, built by folding the column
mappings over the freshly created pending profile. -/
def finalizeProfiles (mappings : List ColumnMapping) (rows : List (List String)) (now : Nat) :
    List Profile :=
  mapWithIdx (fun rowIdx row => applyMappings row 0 mappings (initProfile rowIdx now)) 0 rows

/-- A concrete name mapping used by the claim C3 witness. -/
def wNameMapping : ColumnMapping :=
  { header := "Name", mappedTo := FieldType.name, preview := [], autoDetected := true }

/-! ### Enrichment orchestrator, from handleFinalize and startEnrichment -/

/-- The identification step of handleFinalize: when title or company is
missing, call the identify capability and write back each of title,
company and region as the response value when it is non-empty, keeping
the previous value otherwise. -/
def identifyStep (o : Oracle) (p : Profile) : Profile :=
  if p.title = "" ∨ p.company = "" then
    { p with
      title := jsOr (o.identifyRole p.name p.linkedin_url).title p.title,
      company := jsOr (o.identifyRole p.name p.linkedin_url).company p.company,
      region := jsOr (o.identifyRole p.name p.linkedin_url).region p.region }
  else p

/-- The local title and company used by the orchestrator loop body: the
values of the record, refreshed through the identify capability when one
of the two is missing.  The record itself is not mutated. -/
def discoveredTitleCompany (o : Oracle) (p : Profile) : String × String :=
  if p.title = "" ∨ p.company = "" then
    (jsOr (o.identifyRole p.name p.linkedin_url).title p.title,
     jsOr (o.identifyRole p.name p.linkedin_url).company p.company)
  else (p.title, p.company)

/-- The loop body of startEnrichment for a single record: identify when
needed, call the extract capability, and produce a success, fallback or
error record. -/
def enrichOne (o : Oracle) (p : Profile) : Profile :=
  match o.enrichWithGemini p.name (discoveredTitleCompany o p).1
      (discoveredTitleCompany o p).2 p.linkedin_url with
  | Except.ok result =>
      if result.is_valid then
        { p with
          years_of_experience := result.years_of_experience,
          background := result.background,
          what_they_do := result.what_they_do,
          achievements := result.achievements,
          skills := result.skills,
          region := result.region,
          grounding_urls := result.grounding_urls,
          title := (discoveredTitleCompany o p).1,
          company := (discoveredTitleCompany o p).2,
          enrichment_status := EnrichmentStatus.success,
          enrichment_source := EnrichmentSource.gemini_web }
      else
        { p with
          background := "Professional connection.",
          what_they_do :=
            (o.inferFromTitle (discoveredTitleCompany o p).1
              (discoveredTitleCompany o p).2).typical_responsibilities,
          skills :=
            (o.inferFromTitle (discoveredTitleCompany o p).1
              (discoveredTitleCompany o p).2).typical_skills,
          title := (discoveredTitleCompany o p).1,
          company := (discoveredTitleCompany o p).2,
          enrichment_status := EnrichmentStatus.fallback,
          enrichment_source := EnrichmentSource.title_inference }
  | Except.error _ =>
      { p with enrichment_status := EnrichmentStatus.error,
               enrichment_source := EnrichmentSource.none }

/-- startEnrichment: process the records strictly one at a time, in
order, collecting one output record per input record. -/
def startEnrichment (o : Oracle) (profiles : List Profile) : List Profile :=
  profiles.map (enrichOne o)

/-- Terminal lifecycle statuses. -/
def isTerminal : EnrichmentStatus → Bool
| EnrichmentStatus.success => true
| EnrichmentStatus.fallback => true
| EnrichmentStatus.error => true
| _ => false

/-! #### Concrete oracles and records used by counterexamples and
witnesses -/

/-- An oracle whose identify capability answers with a full non-empty
response and whose extract capability fails with a provider error. -/
def wOracleError : Oracle :=
  { identifyRole := fun _ _ => { title := "Engineer", company := "Acme", region := "Berlin" },
    enrichWithGemini := fun _ _ _ _ => Except.error "boom",
    inferFromTitle := fun _ _ =>
      { typical_responsibilities := "Leads teams.", typical_skills := ["Leadership"] } }

/-- The payload returned by the invalid-extract oracle below. -/
def wInvalidResult : EnrichmentResult :=
  { years_of_experience := "9", background := "Some background.",
    what_they_do := "Ships software.", achievements := "Award.",
    skills := ["Testing"], region := "Austin", is_valid := false, grounding_urls := [] }

/-- An oracle whose extract capability succeeds but reports an invalid
payload, driving the orchestrator to the fallback tier. -/
def wOracleInvalid : Oracle :=
  { identifyRole := fun _ _ => { title := "", company := "", region := "" },
    enrichWithGemini := fun _ _ _ _ => Except.ok wInvalidResult,
    inferFromTitle := fun _ _ =>
      { typical_responsibilities := "Runs projects.", typical_skills := ["Planning", "Agile"] } }

/-- A record with both title and company already known. -/
def wProfileFull : Profile :=
  { initProfile 0 0 with name := "Ada", title := "CTO", company := "Initech", region := "Paris" }

/-- A record whose company is missing while its title is known. -/
def c1CexProfile : Profile :=
  { initProfile 1 0 with name := "Ada", title := "CEO", region := "Paris" }

/-- A record with both title and company missing. -/
def wProfileMissing : Profile :=
  { initProfile 2 0 with name := "Grace" }

/-! ### Search and rank merger, from handleAgentSearch -/

/-- JavaScript array join with a separator. -/
def joinSep (sep : String) : List String → String
| [] => ""
| [x] => x
| x :: y :: t => x ++ sep ++ joinSep sep (y :: t)

/-- Boolean test that the first list occurs contiguously in the second. -/
def containsSeg (needle : List Char) : List Char → Bool
| [] => charsPrefix needle []
| c :: rest => charsPrefix needle (c :: rest) || containsSeg needle rest

/-- Model of the JavaScript includes test on strings. -/
def strContains (hay q : String) : Bool :=
  containsSeg q.toList hay.toList

/-- The processed query: lower-cased and trimmed. -/
def processedQuery (searchQuery : String) : String :=
  strTrim (strLower searchQuery).toList

/-- The region filter applied before any matching: exact region match,
or pass-through on the all-regions sentinel. -/
def regionFilterFn (region : String) (ps : List Profile) : List Profile :=
  if region = "All Regions" then ps else ps.filter (fun p => p.region == region)

/-- The per-record haystack of the deterministic match: name, title,
company, background and the space-joined skills, space-separated. -/
def haystack (p : Profile) : String :=
  p.name ++ " " ++ p.title ++ " " ++ p.company ++ " " ++ p.background ++ " " ++
    joinSep " " p.skills

/-- Deterministic substring matching over the candidates. -/
def substringMatch (q : String) (ps : List Profile) : List Profile :=
  ps.filter (fun p => strContains (strLower (haystack p)) q)

/-- The comparator key of the ranked sort: the score, or zero when the
record carries none. -/
def scoreVal (p : Profile) : Int :=
  p.score.getD 0

/-- The descending-score order used by the ranked sort. -/
def scoreGe (a b : Profile) : Prop :=
  scoreVal b ≤ scoreVal a

instance instDecScoreGe : DecidableRel scoreGe :=
  fun a b => inferInstanceAs (Decidable (scoreVal b ≤ scoreVal a))

instance instTotalScoreGe : IsTotal Profile scoreGe :=
  ⟨fun a b => le_total (scoreVal b) (scoreVal a)⟩

instance instTransScoreGe : IsTrans Profile scoreGe :=
  ⟨fun _ _ _ hab hbc => le_trans hbc hab⟩

/-- The hit a given id maps to: the last hit with that id, because a
JavaScript Map built from an entry list keeps the last entry per key. -/
def lookupLast (recs : List RecHit) (id : String) : Option RecHit :=
  recs.reverse.find? (fun r => r.id == id)

/-- Whether some hit carries the id of the candidate. -/
def hasHit (recs : List RecHit) (p : Profile) : Bool :=
  recs.any (fun r => r.id == p.id)

/-- Attach the score and match reason of the hit for the candidate. -/
def attachHit (recs : List RecHit) (p : Profile) : Profile :=
  { p with score := (lookupLast recs p.id).map RecHit.score,
           match_reason := (lookupLast recs p.id).map RecHit.reason }

/-- The candidates that received a hit, in original order, each with its
score and match reason attached. -/
def rankedCandidates (recs : List RecHit) (filtered : List Profile) : List Profile :=
  (filtered.filter (hasHit recs)).map (attachHit recs)

/-- handleAgentSearch: filter by region; an empty processed query
returns the filtered set; a query longer than ten characters asks the
rank capability and either stably sorts the hit candidates by
descending score or, on an empty rank response, falls back to the
deterministic substring match; short queries always use the substring
match.  The ECMAScript sort is required to be stable, so it is embedded
as a stable insertion sort under the same comparator. -/
def handleAgentSearch (rank : String → List Profile → List RecHit)
    (searchQuery region : String) (profiles : List Profile) : List Profile :=
  if processedQuery searchQuery = "" then regionFilterFn region profiles
  else if 10 < (processedQuery searchQuery).length then
    if 0 < (rank (processedQuery searchQuery) (regionFilterFn region profiles)).length then
      List.insertionSort scoreGe
        (rankedCandidates (rank (processedQuery searchQuery) (regionFilterFn region profiles))
          (regionFilterFn region profiles))
    else substringMatch (processedQuery searchQuery) (regionFilterFn region profiles)
  else substringMatch (processedQuery searchQuery) (regionFilterFn region profiles)

/-! #### Concrete search inputs for witnesses -/

def wHitA : RecHit := { id := "a", score := 90, reason := "match a" }

def wHitB : RecHit := { id := "b", score := 95, reason := "match b" }

def wSearchP1 : Profile :=
  { initProfile 0 0 with id := "a", name := "Alice", title := "Engineer", region := "US" }

def wSearchP2 : Profile :=
  { initProfile 1 0 with id := "b", name := "Bob", region := "US" }

def wSearchP3 : Profile :=
  { initProfile 2 0 with id := "c", name := "Carol", region := "EU" }

def wRankTwo : String → List Profile → List RecHit := fun _ _ => [wHitA, wHitB]

def wRankNone : String → List Profile → List RecHit := fun _ _ => []

/-! ### Tabular export, from exportToCSV in services/csv.ts -/

/-- Double every double-quote character, the model of the global quote
replacement applied to each exported field value. -/
def dupQuotes : List Char → List Char
| [] => []
| c :: rest => if c = '"' then '"' :: '"' :: dupQuotes rest else c :: dupQuotes rest

/-- An exported field: the escaped value enclosed in double quotes. -/
def quoteField (v : String) : String :=
  "\"" ++ String.mk (dupQuotes v.toList) ++ "\""

/-- The fixed header cells of the export. -/
def exportHeaders : List String :=
  ["Name", "Title", "Company", "Region", "LinkedIn", "Years of Experience", "Background",
   "Responsibilities", "Achievements", "Skills"]

/-- The ten quoted cells of one exported data row; the skills are first
joined with a comma and a space and then escaped as one cell. -/
def exportRow (p : Profile) : List String :=
  [quoteField p.name, quoteField p.title, quoteField p.company, quoteField p.region,
   quoteField p.linkedin_url, quoteField p.years_of_experience, quoteField p.background,
   quoteField p.what_they_do, quoteField p.achievements, quoteField (joinSep ", " p.skills)]

/-- exportToCSV: the comma-joined header row followed by one comma-joined
row per profile, all newline-joined. -/
def exportToCSV (profiles : List Profile) : String :=
  joinSep "\n" (joinSep "," exportHeaders :: profiles.map (fun p => joinSep "," (exportRow p)))

/-- The first row of the produced text: everything before the first
newline character. -/
def firstLine (s : String) : String :=
  String.mk (s.toList.takeWhile (fun c => c != '\n'))

/-- Every double quote in the list is immediately followed by another,
so quotes only occur doubled. -/
def quotesOk : List Char → Bool
| [] => true
| c :: rest =>
    if c = '"' then
      match rest with
      | '"' :: rest2 => quotesOk rest2
      | _ => false
    else quotesOk rest

/-- A well-formed exported cell: starts and ends with a double quote and
every interior double quote is doubled. -/
def isQuotedField (f : String) : Bool :=
  match f.toList with
  | [] => false
  | c :: rest => (c == '"') && (rest.getLast? == some '"') && quotesOk rest.dropLast

/-! ### Theorems -/

/-- Claim C8: on the input consisting of Name,Title, a newline, a quoted
Jane comma A cell followed by CEO, and a trailing newline, the tokenizer
yields exactly the headers Name and Title and one data row whose cells
are the unquoted Jane comma A value and CEO; the quoted comma does not
split the field, the enclosing quotes are dropped, and the trailing
newline produces no extra row. -/
theorem c8_tokenizer_scenario :
    parseRawCSV "Name,Title\n\"Jane, A\",CEO\n" =
      { headers := ["Name", "Title"], rows := [["Jane, A", "CEO"]] } := by
  decide

theorem mem_mapWithIdx {α β : Type} (f : Nat → α → β) (i : Nat) (l : List α) (b : β)
    (hb : b ∈ mapWithIdx f i l) : ∃ j a, a ∈ l ∧ b = f j a := by
  induction l generalizing i with
  | nil => simp [mapWithIdx] at hb
  | cons x xs ih =>
      simp only [mapWithIdx, List.mem_cons] at hb
      rcases hb with h | h
      · exact ⟨i, x, by simp, h⟩
      · rcases ih (i + 1) h with ⟨j, a, ha, rfl⟩
        exact ⟨j, a, by simp [ha], rfl⟩

theorem charsPrefix_append (l t : List Char) : charsPrefix l (l ++ t) = true := by
  induction l with
  | nil => rfl
  | cons c cs ih => simp [charsPrefix, ih]

/-- Claim C10: every profile rebuilt by the tabular restore operation
carries enrichment status success, enrichment source gemini_web (the
primary oracle source) and an id freshly generated from the row index
and the current timestamp; whatever status, source or id the records had
when exported is not preserved by a tabular round trip. -/
theorem c10_restore_metadata (headers : List String) (rows : List (List String)) (now : Nat)
    (p : Profile) (hp : p ∈ parseEnrichedCSV headers rows now) :
    p.enrichment_status = EnrichmentStatus.success ∧
    p.enrichment_source = EnrichmentSource.gemini_web ∧
    strHasPrefix "restored-" p.id = true := by
  unfold parseEnrichedCSV at hp
  obtain ⟨j, row, hrow, rfl⟩ := mem_mapWithIdx _ _ _ _ hp
  refine ⟨rfl, rfl, ?_⟩
  show charsPrefix "restored-".toList
    ("restored-".toList ++ (toString j ++ ("-" ++ toString now)).toList) = true
  exact charsPrefix_append _ _

theorem c10_witness :
    ((parseEnrichedCSV ["Name"] [["Alice"]] 7).getD 0 wRestoreDefault).enrichment_status =
        EnrichmentStatus.success ∧
    ((parseEnrichedCSV ["Name"] [["Alice"]] 7).getD 0 wRestoreDefault).enrichment_source =
        EnrichmentSource.gemini_web ∧
    strHasPrefix "restored-"
        ((parseEnrichedCSV ["Name"] [["Alice"]] 7).getD 0 wRestoreDefault).id = true :=
  c10_restore_metadata ["Name"] [["Alice"]] 7 _ (by decide)

/-- Claim C3 is refuted as stated: with a mapping list that assigns no
column to the name field, the finalizer emits a record whose name is the
empty string, so the name of a finalized record is not non-empty for
arbitrary mappings. -/
theorem c3_counterexample :
    (finalizeProfiles
        [{ header := "Name", mappedTo := FieldType.ignore, preview := [], autoDetected := false }]
        [["Alice"]] 0).map Profile.name = [""] := by
  decide

theorem applyMapping_name_of_ne (row : List String) (i : Nat) (m : ColumnMapping) (p : Profile)
    (h : m.mappedTo ≠ FieldType.name) : (applyMapping row i m p).name = p.name := by
  cases hm : m.mappedTo
  case name => exact absurd hm h
  all_goals simp [applyMapping, hm]

theorem applyMapping_name_of_eq (row : List String) (i : Nat) (m : ColumnMapping) (p : Profile)
    (h : m.mappedTo = FieldType.name) : (applyMapping row i m p).name ≠ "" := by
  simp only [applyMapping, h, jsOr]
  split
  · decide
  · assumption

theorem applyMappings_name (row : List String) (ms : List ColumnMapping) :
    ∀ (i : Nat) (p : Profile),
      ((∃ m ∈ ms, m.mappedTo = FieldType.name) ∨ p.name ≠ "") →
      (applyMappings row i ms p).name ≠ "" := by
  induction ms with
  | nil =>
      intro i p h
      rcases h with h | h
      · simp at h
      · exact h
  | cons m ms ih =>
      intro i p h
      show (applyMappings row (i + 1) ms (applyMapping row i m p)).name ≠ ""
      by_cases hm : m.mappedTo = FieldType.name
      · exact ih (i + 1) _ (Or.inr (applyMapping_name_of_eq row i m p hm))
      · rcases h with h | h
        · rcases h with ⟨m2, hm2, hname⟩
          rcases List.mem_cons.mp hm2 with rfl | hm2
          · exact absurd hname hm
          · exact ih (i + 1) _ (Or.inl ⟨m2, hm2, hname⟩)
        · refine ih (i + 1) _ (Or.inr ?_)
          rw [applyMapping_name_of_ne row i m p hm]
          exact h

/-- Claim C3, amended: whenever at least one column mapping targets the
name field, every finalized record has a non-empty name, the cleaned raw
value or the fixed placeholder label when the cleaned value is empty;
without such a mapping the name field is never assigned. -/
theorem c3_amended_name_nonempty (mappings : List ColumnMapping) (rows : List (List String))
    (now : Nat) (hm : ∃ m ∈ mappings, m.mappedTo = FieldType.name)
    (p : Profile) (hp : p ∈ finalizeProfiles mappings rows now) :
    p.name ≠ "" := by
  unfold finalizeProfiles at hp
  obtain ⟨j, row, hrow, rfl⟩ := mem_mapWithIdx _ _ _ _ hp
  exact applyMappings_name row mappings 0 (initProfile j now) (Or.inl hm)

theorem c3_witness :
    ((finalizeProfiles [wNameMapping] [["Bob [VIP] has registered for Summit"]] 3).getD 0
      wRestoreDefault).name ≠ "" :=
  c3_amended_name_nonempty [wNameMapping] [["Bob [VIP] has registered for Summit"]] 3
    ⟨wNameMapping, by decide, rfl⟩ _ (by decide)

/-- Claim C1 is refuted as stated: for a record whose company is missing
but whose title and region already hold the non-empty values CEO and
Paris, a successful identify response with non-empty fields overwrites
both already-known values, so the step does not fill only the missing
fields. -/
theorem c1_counterexample :
    c1CexProfile.title = "CEO" ∧ c1CexProfile.company = "" ∧ c1CexProfile.region = "Paris" ∧
    (identifyStep wOracleError c1CexProfile).title = "Engineer" ∧
    (identifyStep wOracleError c1CexProfile).region = "Berlin" := by
  decide

/-- Claim C1, amended: whenever a record has a missing title or company,
the identification step writes each of title, company and region back as
the identify response value when that value is non-empty, overwriting
any already-known value, and keeps the previous value only when the
response value is empty; every other field of the record is unchanged. -/
theorem c1_amended_identify (o : Oracle) (p : Profile)
    (h : p.title = "" ∨ p.company = "") :
    (identifyStep o p).title =
      (if (o.identifyRole p.name p.linkedin_url).title = "" then p.title
       else (o.identifyRole p.name p.linkedin_url).title) ∧
    (identifyStep o p).company =
      (if (o.identifyRole p.name p.linkedin_url).company = "" then p.company
       else (o.identifyRole p.name p.linkedin_url).company) ∧
    (identifyStep o p).region =
      (if (o.identifyRole p.name p.linkedin_url).region = "" then p.region
       else (o.identifyRole p.name p.linkedin_url).region) ∧
    (identifyStep o p).id = p.id ∧
    (identifyStep o p).name = p.name ∧
    (identifyStep o p).linkedin_url = p.linkedin_url ∧
    (identifyStep o p).email = p.email ∧
    (identifyStep o p).selected = p.selected ∧
    (identifyStep o p).years_of_experience = p.years_of_experience ∧
    (identifyStep o p).background = p.background ∧
    (identifyStep o p).what_they_do = p.what_they_do ∧
    (identifyStep o p).achievements = p.achievements ∧
    (identifyStep o p).skills = p.skills ∧
    (identifyStep o p).grounding_urls = p.grounding_urls ∧
    (identifyStep o p).match_reason = p.match_reason ∧
    (identifyStep o p).score = p.score ∧
    (identifyStep o p).enrichment_status = p.enrichment_status ∧
    (identifyStep o p).enrichment_source = p.enrichment_source := by
  unfold identifyStep jsOr
  rw [if_pos h]
  exact ⟨rfl, rfl, rfl, rfl, rfl, rfl, rfl, rfl, rfl, rfl, rfl, rfl, rfl, rfl, rfl, rfl,
    rfl, rfl⟩

theorem c1_witness :
    (identifyStep wOracleError c1CexProfile).company =
      (if (wOracleError.identifyRole c1CexProfile.name c1CexProfile.linkedin_url).company = ""
       then c1CexProfile.company
       else (wOracleError.identifyRole c1CexProfile.name c1CexProfile.linkedin_url).company) :=
  (c1_amended_identify wOracleError c1CexProfile (by decide)).2.1

theorem enrichOne_terminal (o : Oracle) (p : Profile) :
    isTerminal (enrichOne o p).enrichment_status = true := by
  unfold enrichOne
  cases h : o.enrichWithGemini p.name (discoveredTitleCompany o p).1
      (discoveredTitleCompany o p).2 p.linkedin_url with
  | error e => rfl
  | ok r => by_cases hr : r.is_valid <;> simp [hr, isTerminal]

/-- Claim C2: the batch operation returns one output record per input
record in the same order (position i of the output is the enrichment of
position i of the input), every output record carries a terminal status,
and the outcome at a position depends only on the record at that
position, so a failure while processing one record cannot change the
outcome of any other record of the batch. -/
theorem c2_batch_contract (o : Oracle) (ps : List Profile) :
    (startEnrichment o ps).length = ps.length ∧
    (∀ i : Nat, (startEnrichment o ps)[i]? = (ps[i]?).map (enrichOne o)) ∧
    (∀ q ∈ startEnrichment o ps, isTerminal q.enrichment_status = true) ∧
    (∀ (ps2 : List Profile) (i : Nat), ps[i]? = ps2[i]? →
      (startEnrichment o ps)[i]? = (startEnrichment o ps2)[i]?) := by
  refine ⟨by simp [startEnrichment], ?_, ?_, ?_⟩
  · intro i
    simp [startEnrichment]
  · intro q hq
    rcases List.mem_map.mp hq with ⟨p, _, rfl⟩
    exact enrichOne_terminal o p
  · intro ps2 i h
    simp [startEnrichment, h]

theorem c2_witness :
    isTerminal (enrichOne wOracleError wProfileMissing).enrichment_status = true :=
  (c2_batch_contract wOracleError [wProfileMissing]).2.2.1 _ (by simp [startEnrichment])

/-- Claim C4: when the extract capability fails for a record, the output
record has status error and source none, and every other field, the
identity and role fields as well as the whole enrichment payload, is
exactly the field of the record before the extract call; no enrichment
data is left half-applied. -/
theorem c4_extract_error (o : Oracle) (p : Profile) (e : String)
    (h : o.enrichWithGemini p.name (discoveredTitleCompany o p).1
        (discoveredTitleCompany o p).2 p.linkedin_url = Except.error e) :
    (enrichOne o p).enrichment_status = EnrichmentStatus.error ∧
    (enrichOne o p).enrichment_source = EnrichmentSource.none ∧
    (enrichOne o p).id = p.id ∧
    (enrichOne o p).name = p.name ∧
    (enrichOne o p).title = p.title ∧
    (enrichOne o p).company = p.company ∧
    (enrichOne o p).region = p.region ∧
    (enrichOne o p).linkedin_url = p.linkedin_url ∧
    (enrichOne o p).email = p.email ∧
    (enrichOne o p).selected = p.selected ∧
    (enrichOne o p).years_of_experience = p.years_of_experience ∧
    (enrichOne o p).background = p.background ∧
    (enrichOne o p).what_they_do = p.what_they_do ∧
    (enrichOne o p).achievements = p.achievements ∧
    (enrichOne o p).skills = p.skills ∧
    (enrichOne o p).grounding_urls = p.grounding_urls ∧
    (enrichOne o p).score = p.score ∧
    (enrichOne o p).match_reason = p.match_reason := by
  unfold enrichOne
  simp [h]

theorem c4_witness :
    (enrichOne wOracleError wProfileFull).enrichment_status = EnrichmentStatus.error ∧
    (enrichOne wOracleError wProfileFull).enrichment_source = EnrichmentSource.none :=
  ⟨(c4_extract_error wOracleError wProfileFull "boom" rfl).1,
   (c4_extract_error wOracleError wProfileFull "boom" rfl).2.1⟩

/-- Claim C5: when the extract capability succeeds but reports an
invalid payload, the orchestrator consults the fallback capability and
the output record has status fallback, source title_inference, the
fallback responsibilities as what_they_do, the fallback skills as
skills, and the fixed generic background sentence. -/
theorem c5_invalid_fallback (o : Oracle) (p : Profile) (r : EnrichmentResult)
    (hok : o.enrichWithGemini p.name (discoveredTitleCompany o p).1
        (discoveredTitleCompany o p).2 p.linkedin_url = Except.ok r)
    (hv : r.is_valid = false) :
    (enrichOne o p).enrichment_status = EnrichmentStatus.fallback ∧
    (enrichOne o p).enrichment_source = EnrichmentSource.title_inference ∧
    (enrichOne o p).what_they_do =
      (o.inferFromTitle (discoveredTitleCompany o p).1
        (discoveredTitleCompany o p).2).typical_responsibilities ∧
    (enrichOne o p).skills =
      (o.inferFromTitle (discoveredTitleCompany o p).1
        (discoveredTitleCompany o p).2).typical_skills ∧
    (enrichOne o p).background = "Professional connection." := by
  unfold enrichOne
  simp [hok, hv]

theorem c5_witness :
    (enrichOne wOracleInvalid wProfileFull).enrichment_status = EnrichmentStatus.fallback ∧
    (enrichOne wOracleInvalid wProfileFull).enrichment_source =
      EnrichmentSource.title_inference :=
  ⟨(c5_invalid_fallback wOracleInvalid wProfileFull wInvalidResult rfl rfl).1,
   (c5_invalid_fallback wOracleInvalid wProfileFull wInvalidResult rfl rfl).2.1⟩

theorem filter_orderedInsert (x : Profile) (l : List Profile) (k : Int) :
    (List.orderedInsert scoreGe x l).filter (fun a => scoreVal a == k) =
      if scoreVal x == k then x :: l.filter (fun a => scoreVal a == k)
      else l.filter (fun a => scoreVal a == k) := by
  induction l with
  | nil => cases hx : scoreVal x == k <;> simp [List.orderedInsert, hx]
  | cons y ys ih =>
      by_cases hxy : scoreGe x y
      · simp [List.orderedInsert, hxy, List.filter_cons]
      · have hlt : scoreVal x < scoreVal y := not_le.mp hxy
        simp only [List.orderedInsert, if_neg hxy, List.filter_cons, ih]
        by_cases hx : (scoreVal x == k) = true <;> by_cases hy : (scoreVal y == k) = true
        · exfalso
          have hx2 : scoreVal x = k := by exact_mod_cast eq_of_beq hx
          have hy2 : scoreVal y = k := by exact_mod_cast eq_of_beq hy
          omega
        · simp [hx, hy]
        · simp [hx, hy]
        · simp [hx, hy]

theorem filter_insertionSort_stable (l : List Profile) (k : Int) :
    (List.insertionSort scoreGe l).filter (fun a => scoreVal a == k) =
      l.filter (fun a => scoreVal a == k) := by
  induction l with
  | nil => rfl
  | cons x xs ih =>
      simp [List.insertionSort, filter_orderedInsert, ih, List.filter_cons]

/-- Claim C6: for any fixed rank response containing at least one hit,
the search result is exactly the region-filtered candidates whose id
appears among the hits, with the score and match reason of the hit
attached (candidates without a hit are dropped): the result is a
permutation of that projected list, its scores are non-increasing along
the output, and for every score value the sub-list with that score is
exactly the original-order sub-list, so ties keep the candidates
original relative order. -/
theorem c6_ranked_search (rank : String → List Profile → List RecHit)
    (searchQuery region : String) (profiles : List Profile)
    (hq : 10 < (processedQuery searchQuery).length)
    (hr : rank (processedQuery searchQuery) (regionFilterFn region profiles) ≠ []) :
    (handleAgentSearch rank searchQuery region profiles).Perm
      (rankedCandidates (rank (processedQuery searchQuery) (regionFilterFn region profiles))
        (regionFilterFn region profiles)) ∧
    List.Pairwise (fun a b => scoreVal b ≤ scoreVal a)
      (handleAgentSearch rank searchQuery region profiles) ∧
    ∀ k : Int,
      (handleAgentSearch rank searchQuery region profiles).filter (fun a => scoreVal a == k) =
        (rankedCandidates (rank (processedQuery searchQuery)
            (regionFilterFn region profiles)) (regionFilterFn region profiles)).filter
          (fun a => scoreVal a == k) := by
  have hq0 : ¬ processedQuery searchQuery = "" := by
    intro h0
    rw [h0] at hq
    exact absurd hq (by decide)
  have hlen : 0 < (rank (processedQuery searchQuery)
      (regionFilterFn region profiles)).length := List.length_pos.mpr hr
  unfold handleAgentSearch
  rw [if_neg hq0, if_pos hq, if_pos hlen]
  refine ⟨List.perm_insertionSort scoreGe _, ?_, fun k => filter_insertionSort_stable _ k⟩
  exact List.sorted_insertionSort scoreGe _

theorem c6_witness :
    List.Pairwise (fun a b => scoreVal b ≤ scoreVal a)
      (handleAgentSearch wRankTwo "find senior engineers" "All Regions"
        [wSearchP1, wSearchP2, wSearchP3]) :=
  (c6_ranked_search wRankTwo "find senior engineers" "All Regions"
    [wSearchP1, wSearchP2, wSearchP3] (by decide) (by decide)).2.1

/-- Claim C7: for a processed query longer than ten characters, when the
rank capability answers with the empty sequence the search result is the
deterministic substring filter over the same region-filtered candidates
and the same query: exactly the records whose lower-cased concatenation
of name, title, company, background and joined skills contains the
lower-cased query as a substring. -/
theorem c7_empty_rank_fallback (rank : String → List Profile → List RecHit)
    (searchQuery region : String) (profiles : List Profile)
    (hq : 10 < (processedQuery searchQuery).length)
    (hr : rank (processedQuery searchQuery) (regionFilterFn region profiles) = []) :
    handleAgentSearch rank searchQuery region profiles =
      (regionFilterFn region profiles).filter
        (fun p => strContains (strLower (haystack p)) (processedQuery searchQuery)) := by
  have hq0 : ¬ processedQuery searchQuery = "" := by
    intro h0
    rw [h0] at hq
    exact absurd hq (by decide)
  unfold handleAgentSearch
  rw [if_neg hq0, if_pos hq, hr]
  simp [substringMatch]

theorem c7_witness :
    handleAgentSearch wRankNone "alice the engineer" "All Regions" [wSearchP1, wSearchP2] =
      (regionFilterFn "All Regions" [wSearchP1, wSearchP2]).filter
        (fun p => strContains (strLower (haystack p)) (processedQuery "alice the engineer")) :=
  c7_empty_rank_fallback wRankNone "alice the engineer" "All Regions" [wSearchP1, wSearchP2]
    (by decide) (by decide)

theorem quotesOk_dupQuotes (l : List Char) : quotesOk (dupQuotes l) = true := by
  induction l with
  | nil => rfl
  | cons c rest ih =>
      by_cases hc : c = '"'
      · simp [dupQuotes, hc, quotesOk, ih]
      · simp only [dupQuotes, if_neg hc]
        unfold quotesOk
        rw [if_neg hc]
        exact ih

theorem isQuotedField_of (l : List Char) (h : quotesOk l = true) :
    isQuotedField (String.mk ('"' :: (l ++ ['"']))) = true := by
  show ((('"' : Char) == '"') && ((l ++ ['"']).getLast? == some '"') &&
    quotesOk (l ++ ['"']).dropLast) = true
  rw [List.getLast?_concat, List.dropLast_concat]
  simp [h]

theorem isQuotedField_quoteField (v : String) : isQuotedField (quoteField v) = true := by
  have hq : quoteField v = String.mk ('"' :: (dupQuotes v.toList ++ ['"'])) := rfl
  rw [hq]
  exact isQuotedField_of _ (quotesOk_dupQuotes v.toList)

theorem takeWhile_until_newline (l r : List Char) (h : l.all (fun c => c != '\n') = true) :
    (l ++ '\n' :: r).takeWhile (fun c => c != '\n') = l := by
  induction l with
  | nil => simp
  | cons c cs ih =>
      simp only [List.all_cons, Bool.and_eq_true] at h
      simp [List.takeWhile_cons, h.1, ih h.2]

/-- Claim C9: for every profile list the export begins with exactly the
fixed header row Name, Title, Company, Region, LinkedIn, Years of
Experience, Background, Responsibilities, Achievements, Skills, and
every cell of every data row is enclosed in double quotes with each
interior double quote doubled. -/
theorem c9_export_format (ps : List Profile) :
    firstLine (exportToCSV ps) =
      "Name,Title,Company,Region,LinkedIn,Years of Experience,Background,Responsibilities,Achievements,Skills" ∧
    ∀ p ∈ ps, ∀ f ∈ exportRow p, isQuotedField f = true := by
  constructor
  · cases ps with
    | nil => decide
    | cons p t =>
        show firstLine (joinSep "," exportHeaders ++ "\n" ++
          joinSep "\n" (joinSep "," (exportRow p) :: t.map (fun x => joinSep "," (exportRow x)))) = _
        unfold firstLine
        have hdata : (joinSep "," exportHeaders ++ "\n" ++
            joinSep "\n" (joinSep "," (exportRow p) :: t.map (fun x => joinSep "," (exportRow x)))).toList =
            (joinSep "," exportHeaders).toList ++ '\n' ::
              (joinSep "\n" (joinSep "," (exportRow p) ::
                t.map (fun x => joinSep "," (exportRow x)))).toList := by
          simp [String.data_append]
        rw [hdata, takeWhile_until_newline _ _ (by decide)]
        decide
  · intro p _ f hf
    simp only [exportRow, List.mem_cons, List.not_mem_nil, or_false] at hf
    rcases hf with rfl | rfl | rfl | rfl | rfl | rfl | rfl | rfl | rfl | rfl <;>
      exact isQuotedField_quoteField _

theorem c9_witness :
    isQuotedField (quoteField wProfileFull.name) = true :=
  (c9_export_format [wProfileFull]).2 wProfileFull (by decide)
    (quoteField wProfileFull.name) (by decide)

end LinkedinRecommender

